import Mathlib

/-!
# Verification of the gomailer hook pipeline

Shallow embedding of the hook/middleware registry of `hook.go` in the
gomailer repository, together with the transport `Send` entry points of
`sendmail.go` and the SMTP client.

Modelling choices, recorded once here:

* Go's `error` is `Err := Option String` (`none` is the nil error).
* The generic event `Hook[T]`/`Event` pair is modelled by `Event α`: the
  base `Event` struct's `next` continuation pointer, plus the payload the
  concrete event carries (`data : α`), plus a `log : List String` field
  that stands for the shared log the spec's test scenarios thread through
  handlers (in Go that log is external shared state mutated by closures;
  here it travels with the event state).
* Handler bodies are arbitrary Go closures; they are modelled by the small
  syntax `Action` covering the behaviours the spec describes: append a
  name to the log and continue the chain (`seqLog`), return an error
  without continuing (`fail`), continue and swallow the resulting error
  (`swallow`), and run a delivery function on the payload (`deliverWith`,
  the shape of the one-off action the transports pass to `Trigger`).
* Each continuation closure built by `Trigger` (hook.go lines 187-194)
  captures exactly one action together with the previously installed
  continuation (the chain for the actions after it), so a continuation is
  determined by the list of actions it will run; the event's continuation
  pointer is therefore `List (Action α)`, with `[]` playing Go's nil
  `func() error`.  Invoking a non-nil continuation (`runChain` on
  `a :: rest`) first restores the captured `rest` as the event's
  continuation and then runs the action `a`, exactly as the Go closure
  does; an action that calls `Next` then invokes the event's current
  continuation.
* `generateHookId` draws from `math/rand`; randomness is modelled by an
  ambient supply of candidate ids handed to `Bind`, and the goto-retry
  loop of hook.go lines 82-88 becomes `pickId`, which skips candidates
  colliding with currently registered ids.  Theorems about generated ids
  assume the supply is adequate (yields a fresh id), the counterpart of
  the probabilistic guarantee in Go.
* `sort.SliceStable` with the comparison `Priority i < Priority j`
  (hook.go lines 106-108) produces the unique permutation of the slice
  that is non-decreasing by priority and keeps equal-priority entries in
  their current relative order.  Every stable sort computes that same
  permutation, so the model uses the stable `List.insertionSort` with the
  total comparator `Priority ≤ Priority`.
-/

namespace Gomailer

/-- Go's `error` result: `none` is the nil error. -/
abbrev Err := Option String

/-- The behaviours of handler functions `func(T) error` that the spec's
scenarios use (handlers are arbitrary closures in Go; the claims only
involve these shapes):

* `seqLog name`: append `name` to the shared log, then `return e.Next()`.
* `fail msg`: return the error `msg` without calling `Next`.
* `swallow`: call `e.Next()`, discard the error it returns, return nil.
* `deliverWith f`: return `f` applied to the event's payload without
  calling `Next` — the shape of the transports' one-off delivery action
  `func(e *SendEvent) error { return c.send(e.Message) }`. -/
inductive Action (α : Type) where
  | seqLog (name : String)
  | fail (msg : String)
  | swallow
  | deliverWith (f : α → Err)

/-- The event state: the base `Event` struct's continuation pointer
`next` (the list of actions the installed continuation chain will run;
`[]` is Go's nil continuation), the payload `data` carried by the concrete
event (e.g. `SendEvent.Message`), and the shared log the spec's scenarios
append handler names to. -/
structure Event (α : Type) where
  next : List (Action α) := []
  log : List String := []
  data : α

/-- Invoking a continuation (or Go's nil continuation, `[]`).  Invoking
the closure that captured action `a` and previous continuation `rest`
first restores `rest` as the event's continuation and then runs `a` on the
event, exactly as the closure installed by `Trigger` does; an action that
calls `Next` invokes the event's current continuation, which at that point
is `rest`. -/
def runChain : List (Action α) → Event α → Err × Event α
  | [], e => (none, e)
  | a :: rest, e =>
    match a with
    | .seqLog name => runChain rest { e with next := rest, log := e.log ++ [name] }
    | .fail msg => (some msg, { e with next := rest })
    | .swallow => (none, (runChain rest { e with next := rest }).2)
    | .deliverWith f => (f e.data, { e with next := rest })

/-- `Event.Next` (hook.go lines 228-233): invoke the currently installed
continuation; if none is installed, succeed as a no-op. -/
def Event.Next (e : Event α) : Err × Event α :=
  runChain e.next e

/-- Running a handler function on the event: the meaning of each `Action`
shape as a Go closure body acting on the event. -/
def runAction (a : Action α) (e : Event α) : Err × Event α :=
  match a with
  | .seqLog name => Event.Next { e with log := e.log ++ [name] }
  | .fail msg => (some msg, e)
  | .swallow => (none, e.Next.2)
  | .deliverWith f => (f e.data, e)

/-- A registered handler (hook.go `Handler[T]`); `Bind` guarantees the
stored `Func` is present, so it is total here. -/
structure Handler (α : Type) where
  Func : Action α
  Id : String
  Priority : Int

/-- The argument a caller passes to `Bind`: the Go `*Handler[T]` whose
`Func` may be nil. -/
structure HandlerArg (α : Type) where
  Func : Option (Action α)
  Id : String := ""
  Priority : Int := 0

/-- The hook registry (hook.go `Hook[T]`): the ordered handler list.  The
`sync.RWMutex` serializes access in Go; the sequential model acts on the
state directly. -/
structure Hook (α : Type) where
  handlers : List (Handler α) := []

/-- Stable sort by priority (hook.go lines 106-108): the unique
permutation that is non-decreasing by priority and keeps equal-priority
entries in their current relative order. -/
def sortHandlers (hs : List (Handler α)) : List (Handler α) :=
  hs.insertionSort (fun a b => a.Priority ≤ b.Priority)

/-- The goto-retry loop of hook.go lines 82-88: take candidates from the
ambient pseudorandom supply until one does not collide with a currently
used id.  (Returns `""` if the finite supply modelling this call's random
draws is exhausted; theorems assume an adequate supply.) -/
def pickId (supply used : List String) : String :=
  match supply with
  | [] => ""
  | c :: cs => if c ∈ used then pickId cs used else c

/-- Replace the first handler whose id matches `nh.Id` by `nh`, in place
(hook.go lines 91-97). -/
def replaceFirst : List (Handler α) → Handler α → List (Handler α)
  | [], _ => []
  | x :: xs, nh => if x.Id = nh.Id then nh :: xs else x :: replaceFirst xs nh

/-- `Hook.Bind` (hook.go lines 66-111).  `handler = none` models a nil
`*Handler` pointer; `supply` is the sequence of ids `generateHookId` would
produce during this call. -/
def Hook.Bind (h : Hook α) (handler : Option (HandlerArg α)) (supply : List String) :
    String × Hook α :=
  match handler with
  | none => ("", h)
  | some arg =>
    match arg.Func with
    | none => ("", h)
    | some f =>
      if arg.Id = "" then
        let id := pickId supply (h.handlers.map (·.Id))
        (id, ⟨sortHandlers (h.handlers ++ [⟨f, id, arg.Priority⟩])⟩)
      else
        let nh : Handler α := ⟨f, arg.Id, arg.Priority⟩
        if h.handlers.any (·.Id = arg.Id) then
          (arg.Id, ⟨sortHandlers (replaceFirst h.handlers nh)⟩)
        else
          (arg.Id, ⟨sortHandlers (h.handlers ++ [nh])⟩)

/-- Remove the last handler with the given id, if any: hook.go lines
136-141 scan from the end of the slice and remove the first match found
there, then break. -/
def removeLastById : List (Handler α) → String → List (Handler α)
  | [], _ => []
  | x :: xs, id =>
    if xs.any (·.Id = id) then x :: removeLastById xs id
    else if x.Id = id then xs
    else x :: xs

/-- `Hook.Unbind` (hook.go lines 131-143): remove at most one handler per
given id. -/
def Hook.Unbind (h : Hook α) (idsToRemove : List String) : Hook α :=
  ⟨idsToRemove.foldl (fun hs id => removeLastById hs id) h.handlers⟩

/-- `Hook.UnbindAll` (hook.go lines 146-151). -/
def Hook.UnbindAll (_ : Hook α) : Hook α := ⟨[]⟩

/-- `Hook.Length` (hook.go lines 154-159). -/
def Hook.Length (h : Hook α) : Nat :=
  h.handlers.length

/-- The chain-building loop of `Trigger` (hook.go lines 187-194): for `i`
from last to first, capture the currently installed continuation `old` and
install the closure that restores `old` and runs action `i`.  Starting
from the installed value `init`, this is a right fold. -/
def buildChain (acts : List (Action α)) (init : List (Action α)) : List (Action α) :=
  acts.foldr (fun a c => a :: c) init

/-- `Hook.Trigger` (hook.go lines 173-198): snapshot the registered
handler functions, append the one-off functions, reset the event's
continuation, build the chain from last to first, and start it with
`event.Next()`.  The Go method returns only the error; the model also
returns the final event state, which carries the observable side effects
(the scenarios' shared log) and the final continuation pointer.  No hook
value is returned because lines 175-181 only read the handler list — the
registry is never modified by `Trigger`. -/
def Hook.Trigger (h : Hook α) (event : Event α) (oneOffs : List (Action α)) :
    Err × Event α :=
  let handlers := h.handlers.map (·.Func) ++ oneOffs
  let e1 : Event α := { event with next := [] }
  let e2 : Event α := { e1 with next := buildChain handlers e1.next }
  e2.Next

/-- A hook holding the given actions as its handler list, in that order
(ids and priorities irrelevant to `Trigger`, which only reads `Func`). -/
def hookOf (acts : List (Action α)) : Hook α :=
  ⟨acts.map (fun a => ⟨a, "", 0⟩)⟩

/-- A fresh `SendEvent` carrying the message `m`
(`&SendEvent{Message: m}`). -/
def SendEvent (m : α) : Event α :=
  { next := [], log := [], data := m }

/-- `SMTPClient.Send` / `Sendmail.Send` (sendmail.go lines 55-63 and the
identical SMTP client method): if the `onSend` hook has been created,
route delivery through `Trigger` with the internal `send` as the sole
one-off action; otherwise call `send` directly. -/
def clientSend (onSend : Option (Hook α)) (send : α → Err) (m : α) : Err :=
  match onSend with
  | some hook => (hook.Trigger (SendEvent m) [Action.deliverWith send]).1
  | none => send m

/-- A sequence of `Bind` calls (each with the id supply its
`generateHookId` draws would produce), applied in order. -/
def bindAll (h : Hook α) (reqs : List (Option (HandlerArg α) × List String)) : Hook α :=
  reqs.foldl (fun acc r => (acc.Bind r.1 r.2).2) h

/-- The spec's three-handler scenario: H1 (priority 0), H2 (priority -5),
H3 (priority 0) bound in that order, each appending its name to the shared
log and continuing the chain. -/
def scenarioHook : Hook Unit :=
  (((Hook.Bind ⟨[]⟩ (some ⟨some (.seqLog "H1"), "H1", 0⟩) []).2.Bind
      (some ⟨some (.seqLog "H2"), "H2", -5⟩) []).2.Bind
      (some ⟨some (.seqLog "H3"), "H3", 0⟩) []).2

instance : IsTotal (Handler α) (fun a b => a.Priority ≤ b.Priority) :=
  ⟨fun a b => Int.le_total a.Priority b.Priority⟩

instance : IsTrans (Handler α) (fun a b => a.Priority ≤ b.Priority) :=
  ⟨fun _ _ _ h₁ h₂ => le_trans h₁ h₂⟩

/-! ## Basic chain lemmas -/

theorem buildChain_nil (init : List (Action α)) :
    buildChain [] init = init := rfl

theorem buildChain_cons (a : Action α) (acts init : List (Action α)) :
    buildChain (a :: acts) init = a :: buildChain acts init := rfl

theorem buildChain_append (xs ys init : List (Action α)) :
    buildChain (xs ++ ys) init = buildChain xs (buildChain ys init) := by
  simp [buildChain, List.foldr_append]

/-- Invoking an installed continuation restores the captured rest chain as
the event's continuation and then runs the captured action. -/
theorem runChain_cons (a : Action α) (rest : List (Action α)) (e : Event α) :
    runChain (a :: rest) e = runAction a { e with next := rest } := by
  cases a <;> rfl

/-- Running a chain of log-and-continue actions appends their names to the
log in chain order and then continues with the rest of the chain `k`. -/
theorem runChain_seqLogs (names : List String) (k : List (Action α))
    (l : List String) (d : α) :
    runChain (buildChain (names.map Action.seqLog) k)
        ⟨buildChain (names.map Action.seqLog) k, l, d⟩
      = runChain k ⟨k, l ++ names, d⟩ := by
  induction names generalizing l with
  | nil => simp [buildChain]
  | cons n ns ih =>
    rw [List.map_cons, buildChain_cons, runChain_cons]
    simp only [runAction, Event.Next]
    rw [ih]
    simp

theorem hookOf_funcs (acts : List (Action α)) :
    (hookOf acts).handlers.map (·.Func) = acts := by
  simp [hookOf, Function.comp_def]

/-- `Trigger` unfolded: reset the continuation, install the chain over the
snapshot of handler functions plus one-offs, and invoke it. -/
theorem Trigger_run (h : Hook α) (e : Event α) (o : List (Action α)) :
    h.Trigger e o =
      runChain (buildChain (h.handlers.map (·.Func) ++ o) [])
        ⟨buildChain (h.handlers.map (·.Func) ++ o) [], e.log, e.data⟩ := rfl

theorem Trigger_hookOf (acts o : List (Action α)) (e : Event α) :
    (hookOf acts).Trigger e o =
      runChain (buildChain (acts ++ o) [])
        ⟨buildChain (acts ++ o) [], e.log, e.data⟩ := by
  rw [Trigger_run, hookOf_funcs]

/-- A hook whose handlers all log and continue: `Trigger` returns the nil
error and appends all names, persistent handlers before one-offs. -/
theorem Trigger_seqLogs (names oneNames : List String) (e : Event α) :
    (hookOf (names.map Action.seqLog)).Trigger e (oneNames.map Action.seqLog)
      = (none, ⟨[], e.log ++ (names ++ oneNames), e.data⟩) := by
  rw [Trigger_hookOf, ← List.map_append, runChain_seqLogs]
  rfl

/-- Triggering a hook whose handlers log-and-continue, with an arbitrary
block of further actions appended to the snapshot: the logging prefix runs
first, then the remaining chain takes over. -/
theorem Trigger_seqLogs_then (names : List String) (acts : List (Action α)) (e : Event α) :
    (hookOf (names.map Action.seqLog ++ acts)).Trigger e []
      = runChain (buildChain acts []) ⟨buildChain acts [], e.log ++ names, e.data⟩ := by
  rw [Trigger_hookOf, List.append_nil, buildChain_append, runChain_seqLogs]

/-! ## Sorting and registry lemmas -/

theorem sortHandlers_sorted (l : List (Handler α)) :
    (sortHandlers l).Pairwise (fun a b => a.Priority ≤ b.Priority) :=
  List.sorted_insertionSort _ l

theorem sortHandlers_perm (l : List (Handler α)) : List.Perm (sortHandlers l) l :=
  List.perm_insertionSort _ l

/-- Stability of the re-sort: the subsequence of handlers of any fixed
priority is exactly the same, in the same order, before and after the
sort. -/
theorem sortHandlers_filter (l : List (Handler α)) (p : Int) :
    (sortHandlers l).filter (fun x => x.Priority = p)
      = l.filter (fun x => x.Priority = p) := by
  set q : Handler α → Bool := fun x => x.Priority = p with hq
  have hsub : List.Sublist (l.filter q) (sortHandlers l) := by
    apply List.sublist_insertionSort
    · refine List.pairwise_of_forall_mem_list ?_
      intro a ha b hb
      have ha' : a.Priority = p := by simpa [hq] using (List.of_mem_filter ha)
      have hb' : b.Priority = p := by simpa [hq] using (List.of_mem_filter hb)
      simp [ha', hb']
    · exact List.filter_sublist l
  have hsub' : List.Sublist (l.filter q) ((sortHandlers l).filter q) := by
    have h1 := hsub.filter q
    have h2 : (l.filter q).filter q = l.filter q := by
      simp [List.filter_filter]
    rwa [h2] at h1
  have hlen : ((sortHandlers l).filter q).length = (l.filter q).length :=
    ((sortHandlers_perm l).filter q).length_eq
  exact (hsub'.eq_of_length hlen.symm).symm

theorem sortHandlers_length (l : List (Handler α)) :
    (sortHandlers l).length = l.length :=
  (sortHandlers_perm l).length_eq

theorem sortHandlers_map_id (l : List (Handler α)) :
    List.Perm ((sortHandlers l).map (·.Id)) (l.map (·.Id)) :=
  (sortHandlers_perm l).map _

theorem replaceFirst_length (hs : List (Handler α)) (nh : Handler α) :
    (replaceFirst hs nh).length = hs.length := by
  induction hs with
  | nil => rfl
  | cons x xs ih =>
    by_cases h : x.Id = nh.Id <;> simp [replaceFirst, h, ih]

/-- Replacement never changes the id sequence: the replaced slot already
carried the new handler's id. -/
theorem replaceFirst_map_id (hs : List (Handler α)) (nh : Handler α) :
    (replaceFirst hs nh).map (·.Id) = hs.map (·.Id) := by
  induction hs with
  | nil => rfl
  | cons x xs ih =>
    by_cases h : x.Id = nh.Id <;> simp [replaceFirst, h, ih]

theorem removeLastById_of_not_mem {hs : List (Handler α)} {id : String}
    (h : id ∉ hs.map (·.Id)) : removeLastById hs id = hs := by
  induction hs with
  | nil => rfl
  | cons x xs ih =>
    simp only [List.map_cons, List.mem_cons, not_or] at h
    have hx : ¬x.Id = id := fun hc => h.1 hc.symm
    have hxs : ¬xs.any (·.Id = id) = true := by
      simp only [List.any_eq_true, decide_eq_true_eq]
      rintro ⟨y, hy, rfl⟩
      exact h.2 (List.mem_map_of_mem _ hy)
    simp [removeLastById, hx, hxs]

/-- `Bind` leaves the handler sequence sorted by priority (the sorting
branches sort unconditionally; the defensive no-op branches do not touch
the sequence). -/
theorem bind_sorted (h : Hook α) (arg : Option (HandlerArg α)) (supply : List String)
    (hs : h.handlers.Pairwise (fun a b => a.Priority ≤ b.Priority)) :
    (h.Bind arg supply).2.handlers.Pairwise (fun a b => a.Priority ≤ b.Priority) := by
  match arg with
  | none => simpa [Hook.Bind] using hs
  | some a =>
    match hf : a.Func with
    | none => simpa [Hook.Bind, hf] using hs
    | some f =>
      by_cases hid : a.Id = ""
      · simpa [Hook.Bind, hf, hid] using sortHandlers_sorted _
      · by_cases hex : h.handlers.any (·.Id = a.Id)
        · simpa [Hook.Bind, hf, hid, hex] using sortHandlers_sorted _
        · simpa [Hook.Bind, hf, hid, hex] using sortHandlers_sorted _

theorem bindAll_sorted_aux (reqs : List (Option (HandlerArg α) × List String))
    (h : Hook α) (hs : h.handlers.Pairwise (fun a b => a.Priority ≤ b.Priority)) :
    (bindAll h reqs).handlers.Pairwise (fun a b => a.Priority ≤ b.Priority) := by
  induction reqs generalizing h with
  | nil => simpa [bindAll] using hs
  | cons r rs ih =>
    simpa [bindAll] using ih _ (bind_sorted h r.1 r.2 hs)

/-! ## Claims -/

/-- C1: Triggering the registry with handlers bound in order H1 (priority
0), H2 (priority -5), H3 (priority 0), each appending its name to the
shared log and continuing the chain, produces the log
`["H2", "H1", "H3"]` with a nil error; and in general Trigger runs the
persistent handlers in handler-sequence order (which `Bind` keeps sorted
by ascending priority with ties in insertion order), appending their names
in that order. -/
theorem claim_C1 :
    ((scenarioHook.Trigger ⟨[], [], ()⟩ []).1 = none
      ∧ (scenarioHook.Trigger ⟨[], [], ()⟩ []).2.log = ["H2", "H1", "H3"])
    ∧ ∀ (α : Type) (names : List String) (e : Event α),
        (hookOf (names.map Action.seqLog)).Trigger e []
          = (none, ⟨[], e.log ++ names, e.data⟩) := by
  refine ⟨by decide, ?_⟩
  intro α names e
  simpa using Trigger_seqLogs names [] e

/-- C2: the chain is built from the last action to the first — the
continuation installed for the head action carries the chain of the later
actions; invoking an installed continuation first restores the captured
rest chain as the event's continuation and then invokes its action on the
event; and `Next` on an event with no installed continuation (Go's nil,
here `[]`) is a nil-error no-op. -/
theorem claim_C2 :
    (∀ (α : Type) (a : Action α) (acts init : List (Action α)),
        buildChain (a :: acts) init = a :: buildChain acts init)
    ∧ (∀ (α : Type) (a : Action α) (rest : List (Action α)) (e : Event α),
        runChain (a :: rest) e = runAction a { e with next := rest })
    ∧ ∀ (α : Type) (e : Event α),
        Event.Next { e with next := ([] : List (Action α)) }
          = (none, { e with next := [] }) :=
  ⟨fun _ a acts init => buildChain_cons a acts init,
   fun _ a rest e => runChain_cons a rest e,
   fun _ _ => rfl⟩

/-- C3: a handler that returns an error without calling Next stops the
chain — no later handler runs (the log stops at the preceding handlers)
and Trigger returns exactly that error; and a handler that calls Next and
returns nil despite the inner error makes Trigger return nil. -/
theorem claim_C3 :
    (∀ (α : Type) (names : List String) (msg : String) (rest : List (Action α)) (e : Event α),
        ((hookOf (names.map Action.seqLog ++ Action.fail msg :: rest)).Trigger e []).1
            = some msg
        ∧ ((hookOf (names.map Action.seqLog ++ Action.fail msg :: rest)).Trigger e []).2.log
            = e.log ++ names)
    ∧ ∀ (α : Type) (names : List String) (msg : String) (rest : List (Action α)) (e : Event α),
        ((hookOf (names.map Action.seqLog
            ++ Action.swallow :: Action.fail msg :: rest)).Trigger e []).1 = none := by
  constructor
  · intro α names msg rest e
    rw [Trigger_seqLogs_then]
    simp [buildChain_cons, runChain]
  · intro α names msg rest e
    rw [Trigger_seqLogs_then]
    simp [buildChain_cons, runChain]

/-- C4: one-off handler functions run after all persistent handlers, in
the order supplied; a subsequent Trigger without them does not run them
(only the persistent names are appended again); and they are never
persisted — the registry length counts only bound handlers. -/
theorem claim_C4 :
    (∀ (α : Type) (names ones : List String) (e : Event α),
        (hookOf (names.map Action.seqLog)).Trigger e (ones.map Action.seqLog)
          = (none, ⟨[], e.log ++ (names ++ ones), e.data⟩))
    ∧ (∀ (α : Type) (names ones : List String) (e : Event α),
        ((hookOf (names.map Action.seqLog)).Trigger
            (((hookOf (names.map Action.seqLog)).Trigger e (ones.map Action.seqLog)).2)
            []).2.log
          = (e.log ++ (names ++ ones)) ++ names)
    ∧ ∀ (names : List String),
        (hookOf (names.map Action.seqLog : List (Action Unit))).Length = names.length := by
  refine ⟨fun α names ones e => Trigger_seqLogs names ones e, ?_, ?_⟩
  · intro α names ones e
    rw [Trigger_seqLogs]
    have h2 := Trigger_seqLogs (α := α) names []
      ⟨[], e.log ++ (names ++ ones), e.data⟩
    simpa using congrArg (fun r => r.2.log) h2
  · intro names
    simp [hookOf, Hook.Length]

/-- C5: Trigger resets the event's continuation pointer before building
the new chain, so a stale chain left on a reused event is irrelevant; two
sequential Trigger calls on the same event with disjoint one-off actions
append exactly the persistent names plus that call's own one-off names —
nothing leaks from the earlier call. -/
theorem claim_C5 :
    (∀ (α : Type) (h : Hook α) (stale : List (Action α)) (l : List String) (d : α)
        (o : List (Action α)),
        h.Trigger ⟨stale, l, d⟩ o = h.Trigger ⟨[], l, d⟩ o)
    ∧ ∀ (α : Type) (names one1 one2 : List String) (e : Event α),
        ((hookOf (names.map Action.seqLog)).Trigger
            (((hookOf (names.map Action.seqLog)).Trigger e (one1.map Action.seqLog)).2)
            (one2.map Action.seqLog)).2.log
          = (e.log ++ (names ++ one1)) ++ (names ++ one2) := by
  constructor
  · intro α h stale l d o; rfl
  · intro α names one1 one2 e
    rw [Trigger_seqLogs, Trigger_seqLogs]

/-- C10: a transport's `Send` with a non-nil OnSend hook is exactly a
Trigger of that hook on a fresh SendEvent carrying the message, with the
transport's internal delivery function as the sole one-off action; the
delivery therefore executes as the innermost step, after all persistent
handlers (they have all logged before delivery runs, and Trigger's result
is the delivery's result when they all forward). -/
theorem claim_C10 :
    (∀ (α : Type) (h : Hook α) (deliver : α → Err) (m : α),
        clientSend (some h) deliver m
          = (h.Trigger (SendEvent m) [Action.deliverWith deliver]).1)
    ∧ (∀ (α : Type) (names : List String) (deliver : α → Err) (m : α),
        (hookOf (names.map Action.seqLog)).Trigger (SendEvent m)
            [Action.deliverWith deliver]
          = (deliver m, ⟨[], names, m⟩))
    ∧ ∀ (α : Type) (deliver : α → Err) (m : α), clientSend none deliver m = deliver m := by
  refine ⟨fun _ _ _ _ => rfl, ?_, fun _ _ _ => rfl⟩
  intro α names deliver m
  rw [Trigger_hookOf, buildChain_append, runChain_seqLogs]
  simp [buildChain, runChain, SendEvent]

/-- C6: after any sequence of Binds starting from the empty registry the
handler sequence is non-decreasing by priority; and the re-sort Bind
applies after each insertion or replacement is stable — for every
priority, the subsequence of handlers of that priority is exactly the
pre-sort subsequence, in the same order. -/
theorem claim_C6 :
    (∀ (α : Type) (reqs : List (Option (HandlerArg α) × List String)),
        ((bindAll ⟨[]⟩ reqs).handlers).Pairwise (fun a b => a.Priority ≤ b.Priority))
    ∧ ∀ (α : Type) (l : List (Handler α)) (p : Int),
        (sortHandlers l).filter (fun x => x.Priority = p)
          = l.filter (fun x => x.Priority = p) :=
  ⟨fun _ reqs => bindAll_sorted_aux reqs ⟨[]⟩ List.Pairwise.nil,
   fun _ l p => sortHandlers_filter l p⟩

/-- C7: binding a handler whose id matches a registered one replaces that
entry in its slot rather than appending: the returned id is the given one,
`Length` is unchanged, the resulting sequence is the stable re-sort of the
in-place replacement, and the multiset of registered ids is unchanged. -/
theorem claim_C7 (α : Type) (h : Hook α) (f : Action α) (id : String) (p : Int)
    (supply : List String) (hid : id ≠ "")
    (hex : h.handlers.any (·.Id = id) = true) :
    (h.Bind (some ⟨some f, id, p⟩) supply).1 = id
    ∧ (h.Bind (some ⟨some f, id, p⟩) supply).2.Length = h.Length
    ∧ (h.Bind (some ⟨some f, id, p⟩) supply).2.handlers
        = sortHandlers (replaceFirst h.handlers ⟨f, id, p⟩)
    ∧ List.Perm ((h.Bind (some ⟨some f, id, p⟩) supply).2.handlers.map (·.Id))
        (h.handlers.map (·.Id)) := by
  have hb : h.Bind (some ⟨some f, id, p⟩) supply
      = (id, ⟨sortHandlers (replaceFirst h.handlers ⟨f, id, p⟩)⟩) := by
    simp [Hook.Bind, hid, hex]
  refine ⟨by rw [hb], ?_, by rw [hb], ?_⟩
  · rw [hb]
    simp [Hook.Length, sortHandlers_length, replaceFirst_length]
  · rw [hb]
    have hp := sortHandlers_map_id (replaceFirst h.handlers ⟨f, id, p⟩)
    rwa [replaceFirst_map_id] at hp

theorem claim_C7_witness :
    "x" ≠ ""
    ∧ ((⟨[⟨Action.seqLog "a", "x", 0⟩]⟩ : Hook Unit).handlers.any (·.Id = "x") = true)
    ∧ ((⟨[⟨Action.seqLog "a", "x", 0⟩]⟩ : Hook Unit).Bind
        (some ⟨some (Action.seqLog "b"), "x", 1⟩) []).2.Length
        = (⟨[⟨Action.seqLog "a", "x", 0⟩]⟩ : Hook Unit).Length :=
  ⟨by decide, by decide,
    (claim_C7 Unit ⟨[⟨Action.seqLog "a", "x", 0⟩]⟩ (Action.seqLog "b") "x" 1 []
      (by decide) (by decide)).2.1⟩

/-- C8: no two handlers share an id: Bind preserves distinctness of the
registered ids (an empty-id bind draws fresh ids until no collision, an
explicit-id bind replaces on collision), and two successive binds of
empty-id handlers return two distinct generated ids. -/
theorem claim_C8 :
    (∀ (α : Type) (h : Hook α) (arg : Option (HandlerArg α)) (supply : List String),
        (h.handlers.map (·.Id)).Nodup →
        pickId supply (h.handlers.map (·.Id)) ∉ h.handlers.map (·.Id) →
        ((h.Bind arg supply).2.handlers.map (·.Id)).Nodup)
    ∧ ∀ (α : Type) (h : Hook α) (f1 f2 : Action α) (p1 p2 : Int) (s1 s2 : List String),
        pickId s1 (h.handlers.map (·.Id)) ∉ h.handlers.map (·.Id) →
        pickId s2 ((h.Bind (some ⟨some f1, "", p1⟩) s1).2.handlers.map (·.Id)) ∉
          (h.Bind (some ⟨some f1, "", p1⟩) s1).2.handlers.map (·.Id) →
        (h.Bind (some ⟨some f1, "", p1⟩) s1).1
          ≠ ((h.Bind (some ⟨some f1, "", p1⟩) s1).2.Bind (some ⟨some f2, "", p2⟩) s2).1 := by
  constructor
  · intro α h arg supply hnd hfresh
    match arg with
    | none => simpa [Hook.Bind] using hnd
    | some a =>
      match hf : a.Func with
      | none => simpa [Hook.Bind, hf] using hnd
      | some f =>
        by_cases hid : a.Id = ""
        · rw [Hook.Bind]
          simp only [hf, hid, if_pos]
          refine ((sortHandlers_map_id _).nodup_iff).mpr ?_
          simp only [List.map_append, List.map_cons, List.map_nil]
          rw [List.nodup_append]
          exact ⟨hnd, List.nodup_singleton _, by simpa using hfresh⟩
        · by_cases hex : h.handlers.any (·.Id = a.Id)
          · rw [Hook.Bind]
            simp only [hf, hid, hex, if_neg, if_pos, if_true]
            refine ((sortHandlers_map_id _).nodup_iff).mpr ?_
            rwa [replaceFirst_map_id]
          · rw [Hook.Bind]
            simp only [hf, hid, hex, if_neg, if_false]
            refine ((sortHandlers_map_id _).nodup_iff).mpr ?_
            simp only [List.map_append, List.map_cons, List.map_nil]
            rw [List.nodup_append]
            refine ⟨hnd, List.nodup_singleton _, ?_⟩
            simp only [List.any_eq_true, decide_eq_true_eq, not_exists, not_and] at hex
            simp only [List.disjoint_singleton]
            intro hmem
            obtain ⟨y, hy, hyid⟩ := List.mem_map.mp hmem
            exact hex y hy hyid
  · intro α h f1 f2 p1 p2 s1 s2 h1 h2
    intro heq
    have hb1 : (h.Bind (some ⟨some f1, "", p1⟩) s1)
        = (pickId s1 (h.handlers.map (·.Id)),
            ⟨sortHandlers (h.handlers
              ++ [⟨f1, pickId s1 (h.handlers.map (·.Id)), p1⟩])⟩) := by
      simp [Hook.Bind]
    have hmem : (h.Bind (some ⟨some f1, "", p1⟩) s1).1
        ∈ (h.Bind (some ⟨some f1, "", p1⟩) s1).2.handlers.map (·.Id) := by
      rw [hb1]
      refine ((sortHandlers_map_id _).mem_iff).mpr ?_
      simp
    have hb2 : ((h.Bind (some ⟨some f1, "", p1⟩) s1).2.Bind
        (some ⟨some f2, "", p2⟩) s2).1
        = pickId s2 ((h.Bind (some ⟨some f1, "", p1⟩) s1).2.handlers.map (·.Id)) := by
      simp [Hook.Bind]
    rw [hb2] at heq
    rw [heq] at hmem
    exact h2 hmem

theorem claim_C8_witness :
    pickId ["i"] ((⟨[]⟩ : Hook Unit).handlers.map (·.Id))
        ∉ (⟨[]⟩ : Hook Unit).handlers.map (·.Id)
    ∧ ((⟨[]⟩ : Hook Unit).Bind (some ⟨some (Action.seqLog "a"), "", 0⟩) ["i"]).1
        ≠ (((⟨[]⟩ : Hook Unit).Bind (some ⟨some (Action.seqLog "a"), "", 0⟩) ["i"]).2.Bind
            (some ⟨some (Action.seqLog "b"), "", 0⟩) ["i", "j"]).1 :=
  ⟨by decide,
    claim_C8.2 Unit ⟨[]⟩ (Action.seqLog "a") (Action.seqLog "b") 0 0 ["i"] ["i", "j"]
      (by decide) (by decide)⟩

/-- C9: binding a nil handler or a handler without an action is a silent
no-op returning the empty identifier and leaving the registry unchanged;
unbinding an id with no matching handler leaves the registry unchanged. -/
theorem claim_C9 :
    (∀ (α : Type) (h : Hook α) (supply : List String), h.Bind none supply = ("", h))
    ∧ (∀ (α : Type) (h : Hook α) (id : String) (p : Int) (supply : List String),
        h.Bind (some ⟨none, id, p⟩) supply = ("", h))
    ∧ ∀ (α : Type) (h : Hook α) (id : String),
        id ∉ h.handlers.map (·.Id) → h.Unbind [id] = h := by
  refine ⟨fun _ _ _ => rfl, fun _ _ _ _ _ => rfl, ?_⟩
  intro α h id hid
  simp [Hook.Unbind, removeLastById_of_not_mem hid]

theorem claim_C9_witness :
    "z" ∉ (⟨[⟨Action.seqLog "a", "x", 0⟩]⟩ : Hook Unit).handlers.map (·.Id)
    ∧ (⟨[⟨Action.seqLog "a", "x", 0⟩]⟩ : Hook Unit).Unbind ["z"]
        = (⟨[⟨Action.seqLog "a", "x", 0⟩]⟩ : Hook Unit) :=
  ⟨by decide,
    claim_C9.2.2 Unit ⟨[⟨Action.seqLog "a", "x", 0⟩]⟩ "z" (by decide)⟩

end Gomailer
